import Mathlib

/-!
Shallow embedding of the tile-layer decoding and compositing core of the
tiled-parser repository (files src/tile.rs, src/layer.rs, src/map.rs),
together with theorems settling the frozen claims about it.

Machine integers are embedded as Nat (u8/u16/u32) and Int (i32), with the
wrapping casts of the source made explicit (mod 2 ^ 16 for the u16 cast of
the tileset index, mod 2 ^ 32 where the i32 subtraction and the u32
multiplication of the chunk compositor can wrap).
-/

set_option maxHeartbeats 1000000

namespace TiledParser

/-- Error type as used by the layer/tile parsing code (layer.rs, tile.rs,
map.rs revision): only the variants reachable from the embedded functions
are modelled. -/
inductive Error where
  | InvalidLayerError
  | DecodeLayerError
  | ParseIntError
  | ParsingError
deriving DecidableEq, Repr

/-- Result type, mirroring the Rust alias. -/
abbrev PResult (α : Type) := Except Error α

/-- Decidable equality on results, for concrete evaluations. -/
instance {ε α : Type} [DecidableEq ε] [DecidableEq α] : DecidableEq (Except ε α) :=
  fun a b =>
    match a, b with
    | .ok x, .ok y =>
      if h : x = y then isTrue (by rw [h]) else isFalse (by simp [h])
    | .error x, .error y =>
      if h : x = y then isTrue (by rw [h]) else isFalse (by simp [h])
    | .ok _, .error _ => isFalse (by simp)
    | .error _, .ok _ => isFalse (by simp)

/-- Kind of a tileset entry (map.rs): embeds a tileset or references an
external file.  The embedded tileset record carries no information used by
any embedded function, so it is not modelled further. -/
inductive TilesetEntryKind where
  | internal
  | external (source : String)
deriving DecidableEq, Repr

/-- A single tileset registration within a map (map.rs, struct TilesetEntry). -/
structure TilesetEntry where
  first_gid : Nat
  kind : TilesetEntryKind
deriving DecidableEq, Repr

/-- Flip/rotation bitfield (tile.rs, struct Flip(pub u8)). -/
structure Flip where
  bits : Nat
deriving DecidableEq, Repr

def Flip.FLIPPED_HORIZONTALLY_FLAG : Nat := 0b00001000
def Flip.FLIPPED_VERTICALLY_FLAG : Nat := 0b00000100
def Flip.FLIPPED_DIAGONALLY_FLAG : Nat := 0b00000010
def Flip.ROTATED_HEXAGONAL_120_FLAG : Nat := 0b00000001

def Flip.is_flipped_horizontal (f : Flip) : Bool :=
  f.bits &&& Flip.FLIPPED_HORIZONTALLY_FLAG != 0

def Flip.is_flipped_vertical (f : Flip) : Bool :=
  f.bits &&& Flip.FLIPPED_VERTICALLY_FLAG != 0

def Flip.is_flipped_diagonal (f : Flip) : Bool :=
  f.bits &&& Flip.FLIPPED_DIAGONALLY_FLAG != 0

def Flip.is_rotated_hex_120 (f : Flip) : Bool :=
  f.bits &&& Flip.ROTATED_HEXAGONAL_120_FLAG != 0

/-- Resolved global id of a tile (tile.rs, enum Gid).  The tileset_index
field is a u16 in the source; the u16 cast is made explicit in resolve. -/
inductive Gid where
  | Null
  | Value (tileset_index : Nat) (tile_id : Nat) (flip : Flip)
deriving DecidableEq, Repr

instance : Inhabited Gid := ⟨Gid.Null⟩

/-- Mask of the four orientation bits (tile.rs, Gid::FLIP_FLAGS). -/
def Gid.FLIP_FLAGS : Nat := 0b11110000000000000000000000000000

/-- Scan of the (index, entry) pairs performed by the for loop of
Gid::resolve (tile.rs lines 118-126): the pair list is
entries.enum.reverse, and the first entry whose first_gid is at most the
stripped gid wins.  The `% 2 ^ 16` is the `as u16` cast of the source. -/
def Gid.resolveScan (g flip_bits : Nat) : List (Nat × TilesetEntry) → Gid
  | [] => Gid.Null
  | (i, e) :: rest =>
    if e.first_gid ≤ g then
      Gid.Value (i % 2 ^ 16) (g - e.first_gid) (Flip.mk flip_bits)
    else
      Gid.resolveScan g flip_bits rest

/-- Gid::resolve (tile.rs lines 114-128): strip the top four bits into a
Flip, then scan the tileset entries from the end toward the start. -/
def Gid.resolve (gid : Nat) (entries : List TilesetEntry) : Gid :=
  if gid = 0 then Gid.Null
  else
    let flip_bits := (gid &&& Gid.FLIP_FLAGS) >>> 28
    let g := gid &&& (Gid.FLIP_FLAGS ^^^ (2 ^ 32 - 1))
    Gid.resolveScan g flip_bits (entries.enum.reverse)

/-- Scan performed by Map::tile_location_of (map.rs lines 76-85): the source
iterates tileset_entries.iter().rev().enumerate(), i.e. over
entries.reverse.enum, so the index counted is the position from the END of
the entry list. -/
def tileLocScan (gid : Nat) : List (Nat × TilesetEntry) → Option (Nat × Nat)
  | [] => none
  | (i, e) :: rest =>
    if e.first_gid ≤ gid then some (i, gid - e.first_gid)
    else tileLocScan gid rest

/-- Map::tile_location_of (map.rs lines 76-85), as a function of the map's
tileset-entry list and of the gid value being looked up. -/
def tile_location_of (entries : List TilesetEntry) (gid : Nat) : Option (Nat × Nat) :=
  tileLocScan gid (entries.reverse.enum)

example :
    Gid.resolve 0x80000037
      [⟨1, .external "a"⟩, ⟨50, .external "b"⟩, ⟨100, .external "c"⟩] =
      Gid.Value 1 5 (Flip.mk 8) := by decide

example : Gid.resolve 0 [⟨1, .external "a"⟩] = Gid.Null := by decide

example : (Flip.mk 8).is_flipped_horizontal = true := by decide

example :
    tile_location_of
      [⟨1, .external "a"⟩, ⟨50, .external "b"⟩, ⟨100, .external "c"⟩] 200 =
      some (0, 100) := by decide

/-- Rectangular region of a tile layer (layer.rs, struct TileLayerRegion):
x and y are i32, width and height are u32. -/
structure TileLayerRegion where
  x : Int
  y : Int
  width : Nat
  height : Nat
deriving DecidableEq, Repr

/-- A layer of tiles (layer.rs, struct TileLayer). -/
structure TileLayer where
  width : Nat
  height : Nat
  region : TileLayerRegion
  tile_gids : List Gid
deriving DecidableEq, Repr

/-- Default TileLayer (derive(Default) in the source): zeroed fields and an
empty gid vector. -/
def TileLayer.zeroed : TileLayer := ⟨0, 0, ⟨0, 0, 0, 0⟩, []⟩

/-- Public accessor TileLayer::width (layer.rs line 120). -/
def TileLayer.widthAccessor (l : TileLayer) : Nat := l.width

/-- Public accessor TileLayer::height (layer.rs line 124); the source body
is { self.width }. -/
def TileLayer.heightAccessor (l : TileLayer) : Nat := l.width

/-- TileLayer::gid_at (layer.rs lines 132-144).  The source indexes the gid
vector, which panics when the vector is shorter than the region area; the
embedding returns the list element with a Null default, which coincides
with the source on every in-bounds index. -/
def TileLayer.gid_at (l : TileLayer) (x y : Int) : Gid :=
  let x := x - l.region.x
  let y := y - l.region.y
  let region_width : Int := l.region.width
  let region_height : Int := l.region.height
  if x < 0 ∨ region_width ≤ x then Gid.Null
  else if y < 0 ∨ region_height ≤ y then Gid.Null
  else l.tile_gids.getD (y * region_width + x).toNat Gid.Null

/-- The sequence produced by the Gids iterator (layer.rs lines 198-215),
as a function of its mutable state (x, y, idx); the captured fields width,
total, off_x, off_y of the iterator are read off the layer exactly as in
TileLayer::gids (layer.rs lines 148-159). -/
def gidsRun (l : TileLayer) : Nat → Nat → Nat → Nat → List (Int × Int × Gid)
  | 0, _, _, _ => []
  | fuel + 1, x, y, idx =>
    if h : idx < l.tile_gids.length then
      let item : Int × Int × Gid :=
        ((x : Int) + l.region.x, (y : Int) + l.region.y, l.tile_gids.get ⟨idx, h⟩)
      if x + 1 = l.region.width then
        item :: gidsRun l fuel 0 (y + 1) (idx + 1)
      else
        item :: gidsRun l fuel (x + 1) y (idx + 1)
    else []

/-- TileLayer::gids (layer.rs lines 148-159): the full sequence yielded by
the freshly created iterator.  The fuel argument of gidsRun only drives the
structural recursion; the iterator stops by itself once idx reaches the
total, and the initial fuel is exactly the total, so it is never the
limiting factor. -/
def TileLayer.gids (l : TileLayer) : List (Int × Int × Gid) :=
  gidsRun l l.tile_gids.length 0 0 0

/-- The sequence produced by the NonNullGids iterator (layer.rs lines
219-229): repeatedly pull from the inner iterator, skipping Null gids. -/
def nonNullRun : List (Int × Int × Gid) → List (Int × Int × Gid)
  | [] => []
  | t :: rest => if t.2.2 ≠ Gid.Null then t :: nonNullRun rest else nonNullRun rest

/-- Gids::non_null (layer.rs lines 193-195) followed by iteration. -/
def TileLayer.gidsNonNull (l : TileLayer) : List (Int × Int × Gid) :=
  nonNullRun l.gids

example :
    (TileLayer.mk 2 2 ⟨-1, -1, 2, 2⟩
      [Gid.Null, Gid.Value 0 1 ⟨0⟩, Gid.Value 0 2 ⟨0⟩, Gid.Null]).gids =
    [(-1, -1, Gid.Null), (0, -1, Gid.Value 0 1 ⟨0⟩),
     (-1, 0, Gid.Value 0 2 ⟨0⟩), (0, 0, Gid.Null)] := by decide

example :
    (TileLayer.mk 2 2 ⟨-1, -1, 2, 2⟩
      [Gid.Null, Gid.Value 0 1 ⟨0⟩, Gid.Value 0 2 ⟨0⟩, Gid.Null]).gidsNonNull =
    [(0, -1, Gid.Value 0 1 ⟨0⟩), (-1, 0, Gid.Value 0 2 ⟨0⟩)] := by decide

example :
    (TileLayer.mk 2 2 ⟨-1, -1, 2, 2⟩
      [Gid.Null, Gid.Value 0 1 ⟨0⟩, Gid.Value 0 2 ⟨0⟩, Gid.Null]).gid_at 0 (-1) =
    Gid.Value 0 1 ⟨0⟩ := by decide

example :
    (TileLayer.mk 2 2 ⟨-1, -1, 2, 2⟩
      [Gid.Null, Gid.Value 0 1 ⟨0⟩, Gid.Value 0 2 ⟨0⟩, Gid.Null]).gid_at (-2) 0 =
    Gid.Null := by decide

/-- Whitespace trimming of a character list, modelling str::trim as used on
layer data text and on csv tokens. -/
def trimChars (cs : List Char) : List Char :=
  ((cs.dropWhile Char.isWhitespace).reverse.dropWhile Char.isWhitespace).reverse

/-- Trimming on strings (str::trim). -/
def trimStr (s : String) : String := ⟨trimChars s.data⟩

/-- One step of u32 decimal parsing (str::parse::&lt;u32&gt;): digits only,
final range check against 2 ^ 32. -/
def parseU32Go : List Char → Nat → PResult Nat
  | [], acc => if acc < 2 ^ 32 then .ok acc else .error .ParseIntError
  | c :: rest, acc =>
    if '0' ≤ c ∧ c ≤ '9' then parseU32Go rest (acc * 10 + (c.toNat - 48))
    else .error .ParseIntError

/-- str::parse::&lt;u32&gt; on a token: optional leading plus sign, at least
one digit, value below 2 ^ 32. -/
def parseU32Chars (cs : List Char) : PResult Nat :=
  let cs := match cs with
    | '+' :: rest => rest
    | _ => cs
  match cs with
  | [] => .error .ParseIntError
  | _ => parseU32Go cs 0

/-- str::split(',') on the character list: comma-separated tokens, empty
tokens included. -/
def splitComma : List Char → List Char → List (List Char)
  | [], acc => [acc.reverse]
  | c :: rest, acc =>
    if c = ',' then acc.reverse :: splitComma rest []
    else splitComma rest (c :: acc)

/-- Token-by-token body of parse_csv (layer.rs lines 466-473). -/
def parseCsvGo : List (List Char) → PResult (List Nat)
  | [] => .ok []
  | t :: rest =>
    match parseU32Chars (trimChars t) with
    | .error e => .error e
    | .ok v =>
      match parseCsvGo rest with
      | .error e => .error e
      | .ok vs => .ok (v :: vs)

/-- parse_csv (layer.rs lines 466-473): split on commas, trim each token,
parse each as u32. -/
def parse_csv (csv : String) : PResult (List Nat) :=
  parseCsvGo (splitComma csv.data [])

/-- Value of one base64 symbol in the standard alphabet. -/
def b64Val (c : Char) : Option Nat :=
  if 'A' ≤ c ∧ c ≤ 'Z' then some (c.toNat - 65)
  else if 'a' ≤ c ∧ c ≤ 'z' then some (c.toNat - 97 + 26)
  else if '0' ≤ c ∧ c ≤ '9' then some (c.toNat - 48 + 52)
  else if c = '+' then some 62
  else if c = '/' then some 63
  else none

/-- Modelled from the spec: the external base64 crate behind decode_base64
(layer.rs lines 475-477) is not part of this repository; the spec fixes it
as standard-alphabet decoding with default padding.  Input is consumed in
four-symbol groups, a final group may carry one or two padding signs, and
non-zero unused trailing bits are rejected, as the crate's default engine
does. -/
def b64Groups : List Char → PResult (List Nat)
  | [] => .ok []
  | c1 :: c2 :: c3 :: c4 :: rest =>
    match b64Val c1, b64Val c2 with
    | some v1, some v2 =>
      if c3 = '=' then
        if c4 = '=' ∧ rest = [] ∧ v2 % 16 = 0 then .ok [v1 * 4 + v2 / 16]
        else .error .DecodeLayerError
      else
        match b64Val c3 with
        | some v3 =>
          if c4 = '=' then
            if rest = [] ∧ v3 % 4 = 0 then
              .ok [v1 * 4 + v2 / 16, (v2 % 16) * 16 + v3 / 4]
            else .error .DecodeLayerError
          else
            match b64Val c4 with
            | some v4 =>
              match b64Groups rest with
              | .error e => .error e
              | .ok tail =>
                .ok ((v1 * 4 + v2 / 16) :: ((v2 % 16) * 16 + v3 / 4) ::
                     ((v3 % 4) * 64 + v4) :: tail)
            | none => .error .DecodeLayerError
        | none => .error .DecodeLayerError
    | _, _ => .error .DecodeLayerError
  | _ => .error .DecodeLayerError

/-- decode_base64 (layer.rs lines 475-477): decode the text's bytes,
mapping any failure to DecodeLayerError. -/
def decode_base64 (s : String) : PResult (List Nat) := b64Groups s.data

/-- Little-endian u32 from four bytes (u32::from_le_bytes). -/
def le32 (b0 b1 b2 b3 : Nat) : Nat :=
  b0 + 256 * b1 + 65536 * b2 + 16777216 * b3

/-- Loop of parse_bytes (layer.rs lines 479-487) reading from an in-memory
byte slice.  Read::read on a byte slice fills min(4, remaining) bytes of
the four-byte buffer and returns that count; the loop stops only on count
zero and converts the WHOLE buffer each round, so a trailing group of
fewer than four bytes reuses the stale upper bytes left from the previous
round (initially zero). -/
def parseBytesGo : List Nat → Nat → Nat → Nat → Nat → List Nat
  | [], _, _, _, _ => []
  | [a], _, b1, b2, b3 => [le32 a b1 b2 b3]
  | [a, b], _, _, b2, b3 => [le32 a b b2 b3]
  | [a, b, c], _, _, _, b3 => [le32 a b c b3]
  | a :: b :: c :: d :: rest, _, _, _, _ => le32 a b c d :: parseBytesGo rest a b c d

/-- parse_bytes (layer.rs lines 479-487).  On an in-memory slice the read
call never fails, so the result is always ok. -/
def parse_bytes (bytes : List Nat) : PResult (List Nat) :=
  .ok (parseBytesGo bytes 0 0 0 0)

/-- parse_tile_gids (layer.rs lines 436-464).  The gzip/zlib/zstd
decompressors are external crates consumed as streaming readers; they are
abstracted as functions from the base64-decoded bytes to either the fully
decompressed bytes or a failure, after which the same parse_bytes
unpacking is applied. -/
def parse_tile_gids (gzipD zlibD zstdD : List Nat → PResult (List Nat))
    (layer_data : String) (encoding compression : Option String) :
    PResult (List Nat) :=
  match encoding, compression with
  | some "csv", none => parse_csv layer_data
  | some "base64", none =>
    match decode_base64 layer_data with
    | .error e => .error e
    | .ok decoded => parse_bytes decoded
  | some "base64", some "gzip" =>
    match decode_base64 layer_data with
    | .error _ => .error .DecodeLayerError
    | .ok decoded =>
      match gzipD decoded with
      | .error e => .error e
      | .ok decompressed => parse_bytes decompressed
  | some "base64", some "zlib" =>
    match decode_base64 layer_data with
    | .error _ => .error .DecodeLayerError
    | .ok decoded =>
      match zlibD decoded with
      | .error e => .error e
      | .ok decompressed => parse_bytes decompressed
  | some "base64", some "zstd" =>
    match decode_base64 layer_data with
    | .error _ => .error .DecodeLayerError
    | .ok decoded =>
      match zstdD decoded with
      | .error e => .error e
      | .ok decompressed => parse_bytes decompressed
  | _, _ => .error .DecodeLayerError

/-- Placeholder decompressor used to instantiate the abstract gzip, zlib
and zstd parameters in concrete evaluations; none of the evaluated inputs
reaches a compressed branch. -/
def noDecompress : List Nat → PResult (List Nat) :=
  fun _ => .error .DecodeLayerError

example : parse_csv "1, 2,3" = .ok [1, 2, 3] := by decide
example : parse_csv "1,,3" = .error .ParseIntError := by decide
example : decode_base64 "AQAAAAIA" = .ok [1, 0, 0, 0, 2, 0] := by decide
example :
    parse_tile_gids noDecompress noDecompress noDecompress "AQAAAAIA"
      (some "base64") none = .ok [1, 2] := by decide
example :
    parse_tile_gids noDecompress noDecompress noDecompress "AQAAQAIA"
      (some "base64") none = .ok [1073741825, 1073741826] := by decide
example :
    parse_tile_gids noDecompress noDecompress noDecompress "1"
      (some "base64") (some "unknown") = .error .DecodeLayerError := by decide

/-- One attribute of a chunk element, already bound to its integer value
(x and y parse as i32, width and height as u32); `other` stands for any
attribute whose name is not recognized by the match at layer.rs lines
378-384 (such an attribute still triggers the bounding-box update that the
source performs inside the attribute loop). -/
inductive ChunkAttr where
  | x (v : Int)
  | y (v : Int)
  | width (v : Nat)
  | height (v : Nat)
  | other
deriving DecidableEq, Repr

/-- A chunk element of an infinite layer's data node: its attribute list in
document order and its optional text content. -/
structure ChunkNode where
  attrs : List ChunkAttr
  text : Option String
deriving DecidableEq, Repr

/-- Decoded chunk (layer.rs, struct Chunk). -/
structure Chunk where
  min_x : Int
  min_y : Int
  max_x : Int
  max_y : Int
  tile_gids : List Gid
deriving DecidableEq, Repr

/-- Running global bounding box of the chunk collection loop. -/
structure BBox where
  min_x : Int
  min_y : Int
  max_x : Int
  max_y : Int
deriving DecidableEq, Repr

/-- Initial bounding box (layer.rs lines 367-370): i32::MAX for the minima
and i32::MIN for the maxima. -/
def initBBox : BBox := ⟨2 ^ 31 - 1, 2 ^ 31 - 1, -(2 ^ 31), -(2 ^ 31)⟩

/-- Attribute loop of the chunk collection (layer.rs lines 377-391).  The
running x/y/width/height start at 0 and the global min/max update runs
once per attribute, INSIDE the loop, using the values parsed so far. -/
def processAttrs : List ChunkAttr → Int × Int × Nat × Nat → BBox →
    (Int × Int × Nat × Nat) × BBox
  | [], c, g => (c, g)
  | a :: rest, (x, y, w, h), g =>
    let c : Int × Int × Nat × Nat :=
      match a with
      | .x v => (v, y, w, h)
      | .y v => (x, v, w, h)
      | .width v => (x, y, v, h)
      | .height v => (x, y, w, v)
      | .other => (x, y, w, h)
    let x2 : Int := c.1 + c.2.2.1
    let y2 : Int := c.2.1 + c.2.2.2
    processAttrs rest c
      ⟨min g.min_x c.1, min g.min_y c.2.1, max g.max_x x2, max g.max_y y2⟩

/-- Chunk collection loop of parse_infinite_layer_data (layer.rs lines
366-400): parse each chunk node's attributes (updating the global bounding
box), decode its trimmed text through the layer's decoder, resolve every
raw id, and accumulate the decoded chunks in document order. -/
def collectChunks (decode : String → PResult (List Nat))
    (entries : List TilesetEntry) :
    List ChunkNode → BBox → PResult (List Chunk × BBox)
  | [], g => .ok ([], g)
  | n :: rest, g =>
    match processAttrs n.attrs (0, 0, 0, 0) g with
    | ((x, y, w, h), g1) =>
      let max_x : Int := x + w
      let max_y : Int := y + h
      match n.text with
      | none => .error .InvalidLayerError
      | some t =>
        match decode (trimStr t) with
        | .error e => .error e
        | .ok ids =>
          match collectChunks decode entries rest g1 with
          | .error e => .error e
          | .ok (cs, g2) =>
            .ok (⟨x, y, max_x, max_y,
                  ids.map (fun gid_int => Gid.resolve gid_int entries)⟩ :: cs, g2)

/-- The composite cast `(a - b) as u32` where a and b are i32: the
subtraction wraps into i32 and the cast reinterprets, which together give
the difference modulo 2 ^ 32. -/
def u32OfWrap (v : Int) : Nat := (v % (2 ^ 32 : Int)).toNat

/-- Copy loop for one chunk (layer.rs lines 408-425): every global cell of
the chunk's rectangle is written into the raster at its offset from the
global minimum corner, overwriting whatever was there.  Out-of-range
writes and reads (which panic in the source) are embedded as a no-op set
and a Null-defaulted read; every theorem about this function carries
hypotheses under which all indices are in range. -/
def writeChunk (gmin_x gmin_y : Int) (raw_width : Nat)
    (acc : List Gid) (c : Chunk) : List Gid :=
  (List.range (c.max_y - c.min_y).toNat).foldl (fun acc (ly : Nat) =>
    (List.range (c.max_x - c.min_x).toNat).foldl (fun acc (lx : Nat) =>
      let global_x := c.min_x + (lx : Int)
      let global_y := c.min_y + (ly : Int)
      let raw_idx := ((global_y - gmin_y) * (raw_width : Int) +
        (global_x - gmin_x)).toNat
      let chunk_idx := ((global_y - c.min_y) * (c.max_x - c.min_x) +
        (global_x - c.min_x)).toNat
      acc.set raw_idx (c.tile_gids.getD chunk_idx Gid.Null)) acc) acc

/-- parse_infinite_layer_data (layer.rs lines 361-434).  The decode
argument stands for parse_tile_gids applied at the data node's encoding
and compression attributes (lines 362-363 and 397). -/
def parse_infinite_layer_data (decode : String → PResult (List Nat))
    (entries : List TilesetEntry) (layer : TileLayer)
    (chunkNodes : List ChunkNode) : PResult TileLayer :=
  match collectChunks decode entries chunkNodes initBBox with
  | .error e => .error e
  | .ok (chunks, g) =>
    let raw_width := u32OfWrap (g.max_x - g.min_x)
    let raw_height := u32OfWrap (g.max_y - g.min_y)
    let raw_tile_gids := List.replicate ((raw_width * raw_height) % 2 ^ 32) Gid.Null
    let raw_tile_gids := chunks.foldl (writeChunk g.min_x g.min_y raw_width) raw_tile_gids
    .ok { layer with
            tile_gids := raw_tile_gids,
            region := ⟨g.min_x, g.min_y, raw_width, raw_height⟩ }

/-- parse_finite_layer_data (layer.rs lines 348-358): decode the trimmed
text, resolve every raw id, and size the region by the layer's declared
width and height attributes (the decoded count is NOT validated against
that area). -/
def parse_finite_layer_data (decode : String → PResult (List Nat))
    (entries : List TilesetEntry) (layer : TileLayer)
    (text : Option String) : PResult TileLayer :=
  match text with
  | none => .error .InvalidLayerError
  | some t =>
    match decode (trimStr t) with
    | .error e => .error e
    | .ok ids =>
      .ok { layer with
              tile_gids := ids.map (fun gid_int => Gid.resolve gid_int entries),
              region := { layer.region with
                            width := layer.width, height := layer.height } }

/-- Attribute of a layer element recognized by TileLayer::parse (layer.rs
lines 163-169). -/
inductive LayerAttr where
  | width (v : Nat)
  | height (v : Nat)
  | other
deriving DecidableEq, Repr

/-- A layer's data element: encoding/compression attributes, direct text
content, and chunk children. -/
structure DataNode where
  encoding : Option String
  compression : Option String
  text : Option String
  chunks : List ChunkNode
deriving DecidableEq, Repr

/-- TileLayer::parse (layer.rs lines 161-176): bind the width/height
attributes, require a data child, and dispatch on the map's infinite flag
(the ParseContext of the source carries that flag and the tileset-entry
list). -/
def TileLayer.parse (gzipD zlibD zstdD : List Nat → PResult (List Nat))
    (entries : List TilesetEntry) (infinite : Bool)
    (attrs : List LayerAttr) (data : Option DataNode) : PResult TileLayer :=
  let layer := attrs.foldl (fun l a =>
    match a with
    | .width v => { l with width := v }
    | .height v => { l with height := v }
    | .other => l) TileLayer.zeroed
  match data with
  | none => .error .InvalidLayerError
  | some d =>
    let decode := fun t =>
      parse_tile_gids gzipD zlibD zstdD t d.encoding d.compression
    match infinite with
    | true => parse_infinite_layer_data decode entries layer d.chunks
    | false => parse_finite_layer_data decode entries layer d.text

example :
    parse_infinite_layer_data (fun _ => .ok [1]) [] TileLayer.zeroed [] =
    .ok ⟨0, 0, ⟨2147483647, 2147483647, 1, 1⟩, [Gid.Null]⟩ := by decide

example :
    parse_infinite_layer_data (fun _ => .ok [1]) [⟨1, .external "a"⟩]
      TileLayer.zeroed
      [⟨[.x 0, .y 5, .width 1, .height 1], some "c"⟩] =
    .ok ⟨0, 0, ⟨0, 0, 1, 6⟩,
      [Gid.Null, Gid.Null, Gid.Null, Gid.Null, Gid.Null,
       Gid.Value 0 0 ⟨0⟩]⟩ := by decide

example :
    parse_finite_layer_data (fun _ => .ok [1, 2]) [] ⟨1, 1, ⟨0, 0, 0, 0⟩, []⟩
      (some "1,2") =
    .ok ⟨1, 1, ⟨0, 0, 1, 1⟩, [Gid.Null, Gid.Null]⟩ := by decide

/-! ## General helper lemmas -/

theorem getD_eq_get_of_lt {α : Type} (l : List α) (d : α) {n : Nat}
    (h : n < l.length) : l.getD n d = l.get ⟨n, h⟩ := by
  simp [List.getD, List.getElem?_eq_getElem h, List.get_eq_getElem]

/-! ## Claim C9 -/

/-- C9: the public accessor height() of a TileLayer returns the width
field, exactly like width(), so the parsed height attribute is not
observable through height(). -/
theorem tileLayer_height_accessor_returns_width (l : TileLayer) :
    l.heightAccessor = l.widthAccessor ∧
    (∀ h : Nat, TileLayer.heightAccessor { l with height := h } = l.heightAccessor) :=
  ⟨rfl, fun _ => rfl⟩

/-! ## Claim C6 -/

/-- C7: every (encoding, compression) pair outside the supported matrix
{(csv, none), (base64, none), (base64, gzip), (base64, zlib),
(base64, zstd)} — absent encoding and unrecognized tags included — makes
parse_tile_gids fail with the unsupported-encoding error
(Error::DecodeLayerError) before any raster is built, for every
decompressor behavior and every payload text. -/
theorem parse_tile_gids_unsupported (gzipD zlibD zstdD : List Nat → PResult (List Nat))
    (layer_data : String) (encoding compression : Option String)
    (h : ¬((encoding = some "csv" ∧ compression = none) ∨
        (encoding = some "base64" ∧ (compression = none ∨ compression = some "gzip" ∨
         compression = some "zlib" ∨ compression = some "zstd")))) :
    parse_tile_gids gzipD zlibD zstdD layer_data encoding compression =
      Except.error Error.DecodeLayerError := by
  unfold parse_tile_gids
  split <;> simp_all

/-- C7 witness: the pair (base64, unknown) from the spec's example fails
with the unsupported-encoding error. -/
theorem parse_tile_gids_unsupported_witness :
    parse_tile_gids noDecompress noDecompress noDecompress "AQID"
      (some "base64") (some "unknown") = Except.error Error.DecodeLayerError :=
  parse_tile_gids_unsupported noDecompress noDecompress noDecompress "AQID"
    (some "base64") (some "unknown") (by decide)

/-! ## Claim C5 -/

/-- C5 (code-bug evidence): decoding base64 text whose byte count is not a
multiple of four does NOT fail; parse_bytes converts the whole four-byte
buffer even when the final read only refilled part of it, so the trailing
two bytes [2, 0] are combined with the stale bytes [0, 64] of the previous
group into the fabricated value 0x40000002. -/
theorem parse_bytes_partial_group_no_error :
    decode_base64 "AQAAQAIA" = Except.ok [1, 0, 0, 64, 2, 0] ∧
    (6 : Nat) % 4 ≠ 0 ∧
    parse_tile_gids noDecompress noDecompress noDecompress "AQAAQAIA"
      (some "base64") none = Except.ok [1073741825, 1073741826] := by decide

/-! ## Claim C3 -/

/-- C3 (code-bug evidence): with zero chunk elements the sentinel i32
bounds survive the collection loop, the extent computation wraps the
overflowing difference i32::MIN − i32::MAX = −(2^32 − 1) to 1, and the
parse yields a 1×1 raster holding one Null at origin
(i32::MAX, i32::MAX) — not a zero-extent raster at (0, 0). -/
theorem zero_chunks_wrapped_raster :
    parse_infinite_layer_data (fun _ => Except.ok [1]) [] TileLayer.zeroed [] =
      Except.ok ⟨0, 0, ⟨2147483647, 2147483647, 1, 1⟩, [Gid.Null]⟩ ∧
    initBBox.max_x - initBBox.min_x = -(2 ^ 32 - 1) ∧
    u32OfWrap (initBBox.max_x - initBBox.min_x) = 1 := by decide

/-! ## Claim C4 -/

theorem foldl_length_preserved {β : Type} (f : List Gid → β → List Gid)
    (hf : ∀ a b, (f a b).length = a.length) :
    ∀ (l : List β) (acc : List Gid), (l.foldl f acc).length = acc.length := by
  intro l
  induction l with
  | nil => intro acc; rfl
  | cons b rest ih => intro acc; rw [List.foldl_cons, ih, hf]

theorem writeChunk_length (gmin_x gmin_y : Int) (rw : Nat) (acc : List Gid)
    (c : Chunk) : (writeChunk gmin_x gmin_y rw acc c).length = acc.length := by
  unfold writeChunk
  apply foldl_length_preserved
  intro a ly
  apply foldl_length_preserved
  intro a2 lx
  exact List.length_set a2 _ _

/-- C4 (amended): for finite layers a successful parse gives region origin
(0,0) preserved from the default, extent equal to the declared width and
height, and one cell per DECODED id — the decoded count is not validated,
so the raster invariant holds only when the payload supplies exactly
width*height ids; for infinite layers the invariant
tile_gids.len() = region.width * region.height does hold whenever the
computed extent product does not overflow u32. -/
theorem raster_length_invariant (decode : String → PResult (List Nat))
    (entries : List TilesetEntry) :
    (∀ (layer : TileLayer) (t : String) (ids : List Nat),
      decode (trimStr t) = Except.ok ids →
      parse_finite_layer_data decode entries layer (some t) =
        Except.ok { layer with
          tile_gids := ids.map (fun gid_int => Gid.resolve gid_int entries),
          region := { layer.region with
                        width := layer.width, height := layer.height } }) ∧
    (∀ (layer l2 : TileLayer) (nodes : List ChunkNode),
      parse_infinite_layer_data decode entries layer nodes = Except.ok l2 →
      l2.region.width * l2.region.height < 2 ^ 32 →
      l2.tile_gids.length = l2.region.width * l2.region.height) := by
  constructor
  · intro layer t ids hdec
    unfold parse_finite_layer_data
    simp only [hdec]
  · intro layer l2 nodes hp harea
    unfold parse_infinite_layer_data at hp
    cases hcol : collectChunks decode entries nodes initBBox with
    | error e => rw [hcol] at hp; exact absurd hp (by simp)
    | ok p =>
      obtain ⟨cs, g⟩ := p
      rw [hcol] at hp
      simp only [Except.ok.injEq] at hp
      subst hp
      simp only []
      rw [foldl_length_preserved _ (fun a c => writeChunk_length _ _ _ a c),
        List.length_replicate]
      exact Nat.mod_eq_of_lt harea

/-- C4 counterexample: a finite 1×1 layer whose csv payload supplies two
ids parses successfully into a raster of two cells, violating
tile_gids.len() = region.width * region.height. -/
theorem finite_raster_length_mismatch :
    parse_finite_layer_data
      (fun t => parse_tile_gids noDecompress noDecompress noDecompress t
        (some "csv") none) [] ⟨1, 1, ⟨0, 0, 0, 0⟩, []⟩ (some "1,2") =
      Except.ok ⟨1, 1, ⟨0, 0, 1, 1⟩, [Gid.Null, Gid.Null]⟩ ∧
    [Gid.Null, Gid.Null].length ≠ 1 * 1 := by decide

/-- C4 witness: concrete instantiations of both halves of the amended
invariant theorem. -/
theorem raster_length_invariant_witness :
    parse_finite_layer_data (fun _ => Except.ok [1, 2, 3]) []
      ⟨2, 2, ⟨0, 0, 0, 0⟩, []⟩ (some "d") =
      Except.ok ⟨2, 2, ⟨0, 0, 2, 2⟩, [Gid.Null, Gid.Null, Gid.Null]⟩ ∧
    (TileLayer.mk 0 0 ⟨2147483647, 2147483647, 1, 1⟩ [Gid.Null]).tile_gids.length =
      (TileLayer.mk 0 0 ⟨2147483647, 2147483647, 1, 1⟩ [Gid.Null]).region.width *
      (TileLayer.mk 0 0 ⟨2147483647, 2147483647, 1, 1⟩ [Gid.Null]).region.height := by
  constructor
  · exact (raster_length_invariant (fun _ => Except.ok [1, 2, 3]) []).1
      ⟨2, 2, ⟨0, 0, 0, 0⟩, []⟩ "d" [1, 2, 3] rfl
  · exact (raster_length_invariant (fun _ => Except.ok [1]) []).2
      TileLayer.zeroed _ [] (by decide) (by decide)

/-! ## Claims C1 and C10: reverse-scan infrastructure -/

theorem resolveScan_first_match (g fb : Nat) (L : List (Nat × TilesetEntry)) :
    ∀ (k : Nat) (hk : k < L.length),
      (L.get ⟨k, hk⟩).2.first_gid ≤ g →
      (∀ j (hj : j < L.length), j < k → g < (L.get ⟨j, hj⟩).2.first_gid) →
      Gid.resolveScan g fb L =
        Gid.Value ((L.get ⟨k, hk⟩).1 % 2 ^ 16) (g - (L.get ⟨k, hk⟩).2.first_gid)
          (Flip.mk fb) := by
  induction L with
  | nil => intro k hk; exact absurd hk (Nat.not_lt_zero k)
  | cons p rest ih =>
    intro k hk hle hbefore
    obtain ⟨i, e⟩ := p
    cases k with
    | zero =>
      have hle2 : e.first_gid ≤ g := by simpa using hle
      unfold Gid.resolveScan
      rw [if_pos hle2]
      simp [List.get_cons_zero]
    | succ k2 =>
      have hfail : g < e.first_gid := by
        simpa using hbefore 0 (Nat.succ_pos _) (Nat.succ_pos _)
      unfold Gid.resolveScan
      rw [if_neg (by omega)]
      simp only [List.get_cons_succ]
      refine ih k2 (Nat.lt_of_succ_lt_succ hk) ?_ ?_
      · simpa using hle
      · intro j hj hjk
        simpa using hbefore (j + 1) (Nat.succ_lt_succ hj) (Nat.succ_lt_succ hjk)

theorem resolveScan_null (g fb : Nat) (L : List (Nat × TilesetEntry))
    (h : ∀ p ∈ L, g < p.2.first_gid) : Gid.resolveScan g fb L = Gid.Null := by
  induction L with
  | nil => rfl
  | cons p rest ih =>
    obtain ⟨i, e⟩ := p
    have he : g < e.first_gid := h (i, e) (List.mem_cons_self _ _)
    unfold Gid.resolveScan
    rw [if_neg (by omega)]
    exact ih (fun q hq => h q (List.mem_cons_of_mem _ hq))

theorem tileLocScan_first_match (g : Nat) (L : List (Nat × TilesetEntry)) :
    ∀ (k : Nat) (hk : k < L.length),
      (L.get ⟨k, hk⟩).2.first_gid ≤ g →
      (∀ j (hj : j < L.length), j < k → g < (L.get ⟨j, hj⟩).2.first_gid) →
      tileLocScan g L = some ((L.get ⟨k, hk⟩).1, g - (L.get ⟨k, hk⟩).2.first_gid) := by
  induction L with
  | nil => intro k hk; exact absurd hk (Nat.not_lt_zero k)
  | cons p rest ih =>
    intro k hk hle hbefore
    obtain ⟨i, e⟩ := p
    cases k with
    | zero =>
      have hle2 : e.first_gid ≤ g := by simpa using hle
      unfold tileLocScan
      rw [if_pos hle2]
      simp [List.get_cons_zero]
    | succ k2 =>
      have hfail : g < e.first_gid := by
        simpa using hbefore 0 (Nat.succ_pos _) (Nat.succ_pos _)
      unfold tileLocScan
      rw [if_neg (by omega)]
      simp only [List.get_cons_succ]
      refine ih k2 (Nat.lt_of_succ_lt_succ hk) ?_ ?_
      · simpa using hle
      · intro j hj hjk
        simpa using hbefore (j + 1) (Nat.succ_lt_succ hj) (Nat.succ_lt_succ hjk)

theorem enum_reverse_get_pos (es : List TilesetEntry) (j : Nat)
    (hj : j < es.enum.reverse.length) (hj2 : es.length - 1 - j < es.length) :
    es.enum.reverse.get ⟨j, hj⟩ =
      (es.length - 1 - j, es.get ⟨es.length - 1 - j, hj2⟩) := by
  rw [List.get_eq_getElem, List.getElem_reverse]
  simp only [List.enum_length]
  rw [List.getElem_enum, List.get_eq_getElem]

theorem reverse_enum_get_pos (es : List TilesetEntry) (j : Nat)
    (hj : j < es.reverse.enum.length) (hj2 : es.length - 1 - j < es.length) :
    es.reverse.enum.get ⟨j, hj⟩ = (j, es.get ⟨es.length - 1 - j, hj2⟩) := by
  rw [List.get_eq_getElem, List.getElem_enum]
  congr 1
  rw [List.getElem_reverse, List.get_eq_getElem]

theorem stripped_eq_mod (gid : Nat) :
    gid &&& (Gid.FLIP_FLAGS ^^^ (2 ^ 32 - 1)) = gid % 2 ^ 28 := by
  have hmask : Gid.FLIP_FLAGS ^^^ (2 ^ 32 - 1) = 2 ^ 28 - 1 := by decide
  rw [hmask, Nat.and_pow_two_sub_one_eq_mod]

theorem flip_bits_eq_div (gid : Nat) (h : gid < 2 ^ 32) :
    (gid &&& Gid.FLIP_FLAGS) >>> 28 = gid / 2 ^ 28 := by
  rw [← Nat.shiftRight_eq_div_pow]
  apply Nat.eq_of_testBit_eq
  intro j
  rw [Nat.testBit_shiftRight, Nat.testBit_shiftRight, Nat.testBit_and]
  by_cases hj : j < 4
  · have hf : Gid.FLIP_FLAGS.testBit (28 + j) = true := by
      interval_cases j <;> decide
    rw [hf, Bool.and_true]
  · have hg : gid.testBit (28 + j) = false := by
      rw [Nat.testBit_to_div_mod]
      have hdiv : gid / 2 ^ (28 + j) = 0 :=
        Nat.div_eq_of_lt
          (lt_of_lt_of_le h (Nat.pow_le_pow_right (by norm_num) (by omega)))
      simp [hdiv]
    rw [hg, Bool.false_and]

theorem testBit_div_28 (gid : Nat) (j : Nat) :
    (gid / 2 ^ 28).testBit j = gid.testBit (28 + j) := by
  rw [← Nat.shiftRight_eq_div_pow, Nat.testBit_shiftRight]

theorem flip_of_nibble (d : Nat) (hd : d < 16) :
    (Flip.mk d).is_flipped_horizontal = d.testBit 3 ∧
    (Flip.mk d).is_flipped_vertical = d.testBit 2 ∧
    (Flip.mk d).is_flipped_diagonal = d.testBit 1 ∧
    (Flip.mk d).is_rotated_hex_120 = d.testBit 0 := by
  interval_cases d <;> decide

/-- Core of the resolver: at the greatest index i whose first_gid is at
most the stripped value, Gid::resolve returns that entry's data with the
index truncated by the u16 cast. -/
theorem resolve_value_of_greatest (entries : List TilesetEntry) (gid i : Nat)
    (hi : i < entries.length) (hne : gid ≠ 0) (hlt : gid < 2 ^ 32)
    (hle : (entries.get ⟨i, hi⟩).first_gid ≤ gid % 2 ^ 28)
    (hgt : ∀ j (hj : j < entries.length), i < j →
      gid % 2 ^ 28 < (entries.get ⟨j, hj⟩).first_gid) :
    Gid.resolve gid entries =
      Gid.Value (i % 2 ^ 16) (gid % 2 ^ 28 - (entries.get ⟨i, hi⟩).first_gid)
        (Flip.mk (gid / 2 ^ 28)) := by
  have hlen : entries.enum.reverse.length = entries.length := by
    rw [List.length_reverse, List.enum_length]
  have hk : entries.length - 1 - i < entries.enum.reverse.length := by
    rw [hlen]; omega
  have hidx : entries.length - 1 - (entries.length - 1 - i) = i := by omega
  have hgetk : entries.enum.reverse.get ⟨entries.length - 1 - i, hk⟩ =
      (i, entries.get ⟨i, hi⟩) := by
    rw [enum_reverse_get_pos entries (entries.length - 1 - i) hk (by omega)]
    congr 1 <;> simp only [hidx]
  have hmain := resolveScan_first_match (gid % 2 ^ 28) (gid / 2 ^ 28)
    entries.enum.reverse (entries.length - 1 - i) hk
    (by rw [hgetk]; exact hle)
    (by
      intro j hj hjk
      have hjlen : j < entries.length := by rw [hlen] at hj; exact hj
      have hj2 : entries.length - 1 - j < entries.length := by omega
      rw [enum_reverse_get_pos entries j hj hj2]
      exact hgt (entries.length - 1 - j) hj2 (by omega))
  rw [hgetk] at hmain
  simp only [Gid.resolve, if_neg hne]
  rw [stripped_eq_mod, flip_bits_eq_div gid hlt]
  exact hmain

theorem resolve_null_of_below_all (entries : List TilesetEntry) (gid : Nat)
    (hne : gid ≠ 0) (hbelow : ∀ e ∈ entries, gid % 2 ^ 28 < e.first_gid) :
    Gid.resolve gid entries = Gid.Null := by
  simp only [Gid.resolve, if_neg hne]
  rw [stripped_eq_mod]
  apply resolveScan_null
  intro p hp
  have hmem : p ∈ entries.enum := List.mem_reverse.mp hp
  have hsnd : p.2 ∈ entries := by
    have := List.mem_map_of_mem Prod.snd hmem
    rwa [List.enum_map_snd] at this
  exact hbelow p.2 hsnd

/-! ## Claim C1 -/

/-- C1 (amended): resolution returns Null for raw id 0 or when the
stripped value (the raw id modulo 2^28, i.e. with the top four flip bits
masked off) lies below every entry's first_gid; otherwise it returns the
entry at the greatest index whose first_gid is at most the stripped value
(under the format's non-decreasing order, the greatest qualifying
first_gid), the local tile id stripped − first_gid, and the top four bits
as flip flags (bit 31 horizontal, 30 vertical, 29 diagonal, 28
hex-rotate) — but the stored tileset_index is that index reduced modulo
2^16 (the source's u16 cast), which equals the index itself only while
the entry list has at most 2^16 entries. -/
theorem gid_resolve_characterization (entries : List TilesetEntry) (gid : Nat) :
    (gid = 0 → Gid.resolve gid entries = Gid.Null) ∧
    (gid ≠ 0 → (∀ e ∈ entries, gid % 2 ^ 28 < e.first_gid) →
      Gid.resolve gid entries = Gid.Null) ∧
    (∀ i (hi : i < entries.length),
      gid ≠ 0 → gid < 2 ^ 32 →
      List.Pairwise (fun a b => a.first_gid ≤ b.first_gid) entries →
      (entries.get ⟨i, hi⟩).first_gid ≤ gid % 2 ^ 28 →
      (∀ j (hj : j < entries.length), i < j →
        gid % 2 ^ 28 < (entries.get ⟨j, hj⟩).first_gid) →
      (Gid.resolve gid entries =
        Gid.Value (i % 2 ^ 16)
          (gid % 2 ^ 28 - (entries.get ⟨i, hi⟩).first_gid)
          (Flip.mk (gid / 2 ^ 28)) ∧
       (∀ j (hj : j < entries.length),
         (entries.get ⟨j, hj⟩).first_gid ≤ gid % 2 ^ 28 →
         (entries.get ⟨j, hj⟩).first_gid ≤ (entries.get ⟨i, hi⟩).first_gid) ∧
       ((Flip.mk (gid / 2 ^ 28)).is_flipped_horizontal = gid.testBit 31 ∧
        (Flip.mk (gid / 2 ^ 28)).is_flipped_vertical = gid.testBit 30 ∧
        (Flip.mk (gid / 2 ^ 28)).is_flipped_diagonal = gid.testBit 29 ∧
        (Flip.mk (gid / 2 ^ 28)).is_rotated_hex_120 = gid.testBit 28))) := by
  refine ⟨?_, ?_, ?_⟩
  · intro h
    simp only [Gid.resolve, if_pos h]
  · exact resolve_null_of_below_all entries gid
  · intro i hi hne hlt hsorted hle hgt
    refine ⟨resolve_value_of_greatest entries gid i hi hne hlt hle hgt, ?_, ?_⟩
    · intro j hj hjle
      rcases Nat.lt_trichotomy j i with hji | hji | hji
      · exact List.pairwise_iff_get.mp hsorted ⟨j, hj⟩ ⟨i, hi⟩ hji
      · subst hji; exact Nat.le_refl _
      · exact absurd hjle (by have := hgt j hj hji; omega)
    · have hd : gid / 2 ^ 28 < 16 := by
        have h16 : (2 : Nat) ^ 28 * 16 = 2 ^ 32 := by norm_num
        exact Nat.div_lt_of_lt_mul (by omega)
      obtain ⟨f3, f2, f1, f0⟩ := flip_of_nibble (gid / 2 ^ 28) hd
      refine ⟨?_, ?_, ?_, ?_⟩
      · rw [f3, testBit_div_28]
      · rw [f2, testBit_div_28]
      · rw [f1, testBit_div_28]
      · rw [f0, testBit_div_28]

/-- C1 counterexample: with 2^16 + 1 entries (all first_gid 1, a
non-decreasing list), raw id 1 matches the entry at index 2^16, but the
u16 cast stores tileset_index 0, so the claim's "tileset_index is the
index of the entry" fails. -/
theorem gid_resolve_u16_truncation :
    Gid.resolve 1 (List.replicate 65537 ⟨1, TilesetEntryKind.external "t"⟩) =
      Gid.Value 0 0 (Flip.mk 0) ∧
    Gid.Value 0 0 (Flip.mk 0) ≠ Gid.Value 65536 0 (Flip.mk 0) := by
  constructor
  · have h := resolve_value_of_greatest
      (List.replicate 65537 ⟨1, TilesetEntryKind.external "t"⟩) 1 65536
      (by rw [List.length_replicate]; omega) (by omega) (by norm_num)
      (by rw [List.get_eq_getElem, List.getElem_replicate]; decide)
      (by intro j hj hij; rw [List.length_replicate] at hj; omega)
    rw [h, List.get_eq_getElem, List.getElem_replicate]
    decide
  · decide

/-- C1 witness: the spec's concrete example — entries with first_gid
1, 50, 100 and raw id 0x8000_0037 — resolves through the characterization
theorem to tileset index 1, tile id 5, horizontal flip set. -/
theorem gid_resolve_characterization_witness :
    Gid.resolve 2147483703
      [⟨1, .external "a"⟩, ⟨50, .external "b"⟩, ⟨100, .external "c"⟩] =
      Gid.Value 1 5 (Flip.mk 8) ∧
    (Flip.mk 8).is_flipped_horizontal = true := by
  have h := (gid_resolve_characterization
    [⟨1, .external "a"⟩, ⟨50, .external "b"⟩, ⟨100, .external "c"⟩]
      2147483703).2.2 1 (by decide) (by decide) (by norm_num)
    (by decide) (by decide)
    (by
      intro j hj hij
      have hj3 : j < 3 := by simpa using hj
      have hj2 : j = 2 := by omega
      subst hj2
      show (2147483703 : Nat) % 2 ^ 28 < 100
      decide)
  refine ⟨?_, by decide⟩
  rw [h.1]
  rfl

/-! ## Claim C10 -/

/-- C10: for a non-decreasing tileset-entry list and a gid value at or
above some entry's first_gid (positive, no flip bits), tile_location_of
selects the same entry as Gid::resolve — the one at the greatest index
whose first_gid is at most the value — and returns the same local tile
id, but reports the entry's position counted from the END of the list,
entries.len() − 1 − i, while resolve stores the document-order index i
(modulo the u16 cast). -/
theorem tile_location_matches_resolve (entries : List TilesetEntry) (gid : Nat) :
    ∀ i (hi : i < entries.length),
      0 < gid → gid < 2 ^ 28 →
      List.Pairwise (fun a b => a.first_gid ≤ b.first_gid) entries →
      (entries.get ⟨i, hi⟩).first_gid ≤ gid →
      (∀ j (hj : j < entries.length), i < j →
        gid < (entries.get ⟨j, hj⟩).first_gid) →
      tile_location_of entries gid =
        some (entries.length - 1 - i, gid - (entries.get ⟨i, hi⟩).first_gid) ∧
      Gid.resolve gid entries =
        Gid.Value (i % 2 ^ 16) (gid - (entries.get ⟨i, hi⟩).first_gid)
          (Flip.mk 0) := by
  intro i hi hpos hlt hsorted hle hgt
  have hmod : gid % 2 ^ 28 = gid := Nat.mod_eq_of_lt hlt
  have hdiv : gid / 2 ^ 28 = 0 := Nat.div_eq_of_lt hlt
  constructor
  · have hlen : entries.reverse.enum.length = entries.length := by
      rw [List.enum_length, List.length_reverse]
    have hk : entries.length - 1 - i < entries.reverse.enum.length := by
      rw [hlen]; omega
    have hidx : entries.length - 1 - (entries.length - 1 - i) = i := by omega
    have hgetk : entries.reverse.enum.get ⟨entries.length - 1 - i, hk⟩ =
        (entries.length - 1 - i, entries.get ⟨i, hi⟩) := by
      rw [reverse_enum_get_pos entries (entries.length - 1 - i) hk (by omega)]
      congr 1 <;> simp only [hidx]
    have hmain := tileLocScan_first_match gid entries.reverse.enum
      (entries.length - 1 - i) hk
      (by rw [hgetk]; exact hle)
      (by
        intro j hj hjk
        have hjlen : j < entries.length := by rw [hlen] at hj; exact hj
        have hj2 : entries.length - 1 - j < entries.length := by omega
        rw [reverse_enum_get_pos entries j hj hj2]
        exact hgt (entries.length - 1 - j) hj2 (by omega))
    rw [hgetk] at hmain
    unfold tile_location_of
    exact hmain
  · have h := resolve_value_of_greatest entries gid i hi (by omega)
      (by
        have h2 : (2 : Nat) ^ 28 < 2 ^ 32 := by norm_num
        omega)
      (by rw [hmod]; exact hle)
      (by intro j hj hij; rw [hmod]; exact hgt j hj hij)
    rw [hmod, hdiv] at h
    exact h

/-- C10 witness: entries with first_gid 1, 50, 100 and gid value 200 —
tile_location_of reports (0, 100) (position from the end), resolve stores
document-order index 2 with the same tile id 100. -/
theorem tile_location_matches_resolve_witness :
    tile_location_of
      [⟨1, .external "a"⟩, ⟨50, .external "b"⟩, ⟨100, .external "c"⟩] 200 =
      some (0, 100) ∧
    Gid.resolve 200
      [⟨1, .external "a"⟩, ⟨50, .external "b"⟩, ⟨100, .external "c"⟩] =
      Gid.Value 2 100 (Flip.mk 0) := by
  have h := tile_location_matches_resolve
    [⟨1, .external "a"⟩, ⟨50, .external "b"⟩, ⟨100, .external "c"⟩] 200 2
    (by decide) (by decide) (by decide) (by decide) (by decide)
    (by
      intro j hj hij
      have hj3 : j < 3 := by simpa using hj
      omega)
  exact ⟨h.1, h.2⟩

/-! ## Claim C8 -/

theorem mod_div_step_wrap (idx w : Nat) (h : idx % w + 1 = w) :
    (idx + 1) % w = 0 ∧ (idx + 1) / w = idx / w + 1 := by
  have hw : 0 < w := by omega
  have he : idx + 1 = (idx / w + 1) * w := by
    have hdm := Nat.div_add_mod idx w
    calc idx + 1 = w * (idx / w) + (idx % w + 1) := by omega
      _ = w * (idx / w) + w := by rw [h]
      _ = (idx / w + 1) * w := by ring
  constructor
  · rw [he, Nat.mul_mod_left]
  · rw [he, Nat.mul_div_cancel _ hw]

theorem mod_div_step_no_wrap (idx w : Nat) (h : idx % w + 1 ≠ w) :
    (idx + 1) % w = idx % w + 1 ∧ (idx + 1) / w = idx / w := by
  rcases Nat.eq_zero_or_pos w with hw | hw
  · subst hw; simp [Nat.mod_zero, Nat.div_zero]
  · have hlt : idx % w < w := Nat.mod_lt _ hw
    have hlt2 : idx % w + 1 < w := by omega
    have he : idx + 1 = idx % w + 1 + w * (idx / w) := by
      have hdm := Nat.div_add_mod idx w
      omega
    constructor
    · rw [he, Nat.add_mul_mod_self_left, Nat.mod_eq_of_lt hlt2]
    · rw [he, Nat.add_mul_div_left _ _ hw, Nat.div_eq_of_lt hlt2, Nat.zero_add]

/-- The iterator run, started at step idx (whose state is then
x = idx % width, y = idx / width), yields exactly the remaining cells in
order, with their row-major coordinates. -/
theorem gidsRun_characterization (l : TileLayer) :
    ∀ (fuel idx : Nat), l.tile_gids.length ≤ fuel + idx →
      gidsRun l fuel (idx % l.region.width) (idx / l.region.width) idx =
        (List.range (l.tile_gids.length - idx)).map (fun j =>
          ((((idx + j) % l.region.width : Nat) : Int) + l.region.x,
           (((idx + j) / l.region.width : Nat) : Int) + l.region.y,
           l.tile_gids.getD (idx + j) Gid.Null)) := by
  intro fuel
  induction fuel with
  | zero =>
    intro idx hf
    have h0 : l.tile_gids.length - idx = 0 := by omega
    rw [h0]
    rfl
  | succ fuel ih =>
    intro idx hf
    by_cases h : idx < l.tile_gids.length
    · rw [show l.tile_gids.length - idx = (l.tile_gids.length - (idx + 1)) + 1 by
        omega]
      rw [List.range_succ_eq_map, List.map_cons, List.map_map]
      simp only [gidsRun, dif_pos h]
      by_cases hx : idx % l.region.width + 1 = l.region.width
      · obtain ⟨hm, hd⟩ := mod_div_step_wrap idx l.region.width hx
        have hrec := ih (idx + 1) (by omega)
        rw [hm, hd] at hrec
        rw [if_pos hx, hrec]
        congr 1
        · simp only [Nat.add_zero]
          rw [getD_eq_get_of_lt _ _ h]
        · apply List.map_congr_left
          intro j hj
          simp only [Function.comp_apply]
          have hsh : idx + (j + 1) = idx + 1 + j := by omega
          simp only [Nat.succ_eq_add_one, hsh]
      · obtain ⟨hm, hd⟩ := mod_div_step_no_wrap idx l.region.width hx
        have hrec := ih (idx + 1) (by omega)
        rw [hm, hd] at hrec
        rw [if_neg hx, hrec]
        congr 1
        · simp only [Nat.add_zero]
          rw [getD_eq_get_of_lt _ _ h]
        · apply List.map_congr_left
          intro j hj
          simp only [Function.comp_apply]
          have hsh : idx + (j + 1) = idx + 1 + j := by omega
          simp only [Nat.succ_eq_add_one, hsh]
    · simp only [gidsRun, dif_neg h]
      have h0 : l.tile_gids.length - idx = 0 := by omega
      rw [h0]
      rfl

/-- The full iteration as a range map. -/
theorem gids_eq_range_map (l : TileLayer) :
    l.gids = (List.range l.tile_gids.length).map (fun j =>
      (((j % l.region.width : Nat) : Int) + l.region.x,
       ((j / l.region.width : Nat) : Int) + l.region.y,
       l.tile_gids.getD j Gid.Null)) := by
  have h := gidsRun_characterization l l.tile_gids.length 0 (by omega)
  simp only [Nat.zero_mod, Nat.zero_div, Nat.sub_zero, Nat.zero_add] at h
  exact h

theorem nonNullRun_eq_filter (xs : List (Int × Int × Gid)) :
    nonNullRun xs = xs.filter (fun t => t.2.2 != Gid.Null) := by
  induction xs with
  | nil => rfl
  | cons t rest ih =>
    by_cases h : t.2.2 = Gid.Null <;>
      simp [nonNullRun, List.filter_cons, h, ih]

/-- A chunk covers a world cell when the cell lies in the chunk's
half-open rectangle. -/
def Chunk.covers (c : Chunk) (gx gy : Int) : Prop :=
  c.min_x ≤ gx ∧ gx < c.max_x ∧ c.min_y ≤ gy ∧ gy < c.max_y

instance (c : Chunk) (gx gy : Int) : Decidable (c.covers gx gy) := by
  unfold Chunk.covers
  infer_instance

/-- The last chunk in processing order that covers a cell — the one whose
value survives the overwrite policy. -/
def lastCovering (cs : List Chunk) (gx gy : Int) : Option Chunk :=
  cs.foldl (fun acc c => if c.covers gx gy then some c else acc) none

/-- One bounding box extends another when it is at least as wide on every
side. -/
def bboxExt (g1 g2 : BBox) : Prop :=
  g2.min_x ≤ g1.min_x ∧ g2.min_y ≤ g1.min_y ∧
  g1.max_x ≤ g2.max_x ∧ g1.max_y ≤ g2.max_y

theorem bboxExt_refl (g : BBox) : bboxExt g g :=
  ⟨le_refl _, le_refl _, le_refl _, le_refl _⟩

theorem bboxExt_trans {g1 g2 g3 : BBox} (h1 : bboxExt g1 g2)
    (h2 : bboxExt g2 g3) : bboxExt g1 g3 := by
  obtain ⟨a1, a2, a3, a4⟩ := h1
  obtain ⟨b1, b2, b3, b4⟩ := h2
  exact ⟨le_trans b1 a1, le_trans b2 a2, le_trans a3 b3, le_trans a4 b4⟩

theorem processAttrs_bbox_ext (attrs : List ChunkAttr) :
    ∀ (c : Int × Int × Nat × Nat) (g : BBox),
      bboxExt g (processAttrs attrs c g).2 := by
  induction attrs with
  | nil => intro c g; exact bboxExt_refl g
  | cons a rest ih =>
    intro c g
    obtain ⟨x, y, w, h⟩ := c
    simp only [processAttrs]
    refine bboxExt_trans ?_ (ih _ _)
    exact ⟨min_le_left _ _, min_le_left _ _, le_max_left _ _, le_max_left _ _⟩

theorem processAttrs_rect_included (attrs : List ChunkAttr) :
    attrs ≠ [] →
    ∀ (c : Int × Int × Nat × Nat) (g : BBox),
      (processAttrs attrs c g).2.min_x ≤ (processAttrs attrs c g).1.1 ∧
      (processAttrs attrs c g).2.min_y ≤ (processAttrs attrs c g).1.2.1 ∧
      (processAttrs attrs c g).1.1 + ((processAttrs attrs c g).1.2.2.1 : Int) ≤
        (processAttrs attrs c g).2.max_x ∧
      (processAttrs attrs c g).1.2.1 + ((processAttrs attrs c g).1.2.2.2 : Int) ≤
        (processAttrs attrs c g).2.max_y := by
  induction attrs with
  | nil => intro hne; exact absurd rfl hne
  | cons a rest ih =>
    intro _ c g
    obtain ⟨x, y, w, h⟩ := c
    by_cases hr : rest = []
    · subst hr
      simp only [processAttrs]
      exact ⟨min_le_right _ _, min_le_right _ _, le_max_right _ _, le_max_right _ _⟩
    · simp only [processAttrs]
      exact ih hr _ _

/-- Facts extracted from a successful chunk collection: the bounding box
only grows, every chunk's rectangle is well-oriented, and every chunk
with a non-empty rectangle lies inside the final bounding box. -/
theorem collectChunks_facts (decode : String → PResult (List Nat))
    (entries : List TilesetEntry) :
    ∀ (nodes : List ChunkNode) (g0 : BBox) (cs : List Chunk) (gf : BBox),
      collectChunks decode entries nodes g0 = Except.ok (cs, gf) →
      bboxExt g0 gf ∧
      ∀ c ∈ cs,
        (c.min_x ≤ c.max_x ∧ c.min_y ≤ c.max_y) ∧
        (c.min_x < c.max_x → c.min_y < c.max_y →
          gf.min_x ≤ c.min_x ∧ c.max_x ≤ gf.max_x ∧
          gf.min_y ≤ c.min_y ∧ c.max_y ≤ gf.max_y) := by
  intro nodes
  induction nodes with
  | nil =>
    intro g0 cs gf h
    simp only [collectChunks, Except.ok.injEq, Prod.mk.injEq] at h
    obtain ⟨h1, h2⟩ := h
    subst h2
    refine ⟨bboxExt_refl _, ?_⟩
    intro c hc
    rw [← h1] at hc
    exact absurd hc (List.not_mem_nil c)
  | cons n rest ih =>
    intro g0 cs gf h
    simp only [collectChunks] at h
    rcases hq : processAttrs n.attrs (0, 0, 0, 0) g0 with ⟨⟨x, y, w, ht⟩, g1⟩
    rw [hq] at h
    cases htext : n.text with
    | none =>
      simp only [htext] at h
      exact absurd h (by simp)
    | some t =>
      simp only [htext] at h
      cases hdec : decode (trimStr t) with
      | error e =>
        simp only [hdec] at h
        exact absurd h (by simp)
      | ok ids =>
        simp only [hdec] at h
        cases hrest : collectChunks decode entries rest g1 with
        | error e =>
          simp only [hrest] at h
          exact absurd h (by simp)
        | ok pr =>
          obtain ⟨cs2, g2⟩ := pr
          simp only [hrest, Except.ok.injEq, Prod.mk.injEq] at h
          obtain ⟨h1, h2⟩ := h
          subst h2
          obtain ⟨hext2, hmem2⟩ := ih g1 cs2 g2 hrest
          have hext1 : bboxExt g0 g1 := by
            have hx := processAttrs_bbox_ext n.attrs (0, 0, 0, 0) g0
            rw [hq] at hx
            exact hx
          refine ⟨bboxExt_trans hext1 hext2, ?_⟩
          intro c hc
          rw [← h1] at hc
          rcases List.mem_cons.mp hc with hceq | hctail
          · subst hceq
            constructor
            · constructor
              · show x ≤ x + (w : Int)
                omega
              · show y ≤ y + (ht : Int)
                omega
            · intro hxx hyy
              have hxx2 : x < x + (w : Int) := hxx
              have hyy2 : y < y + (ht : Int) := hyy
              have hwpos : 0 < w := by omega
              have hne : n.attrs ≠ [] := by
                intro hnil
                rw [hnil] at hq
                simp only [processAttrs, Prod.mk.injEq] at hq
                omega
              have hrect := processAttrs_rect_included n.attrs hne (0, 0, 0, 0) g0
              rw [hq] at hrect
              have e1 : g1.min_x ≤ x := hrect.1
              have e2 : g1.min_y ≤ y := hrect.2.1
              have e3 : x + (w : Int) ≤ g1.max_x := hrect.2.2.1
              have e4 : y + (ht : Int) ≤ g1.max_y := hrect.2.2.2
              obtain ⟨f1, f2, f3, f4⟩ := hext2
              refine ⟨?_, ?_, ?_, ?_⟩
              · show g2.min_x ≤ x
                omega
              · show x + (w : Int) ≤ g2.max_x
                omega
              · show g2.min_y ≤ y
                omega
              · show y + (ht : Int) ≤ g2.max_y
                omega
          · exact hmem2 c hctail

theorem getD_set_self (l : List Gid) (i : Nat) (a : Gid) (h : i < l.length) :
    (l.set i a).getD i Gid.Null = a := by
  simp [List.getD, List.getElem?_set_eq_of_lt a h]

theorem getD_set_ne (l : List Gid) (i j : Nat) (a : Gid) (h : i ≠ j) :
    (l.set i a).getD j Gid.Null = l.getD j Gid.Null := by
  simp [List.getD, List.getElem?_set_ne, h]

theorem toNat_linear' (A B C : Int) (hA : 0 ≤ A) (hB : 0 ≤ B) (hC : 0 ≤ C) :
    (A * B + C).toNat = A.toNat * B.toNat + C.toNat := by
  have e1 : A = (A.toNat : Int) := (Int.toNat_of_nonneg hA).symm
  have e2 : B = (B.toNat : Int) := (Int.toNat_of_nonneg hB).symm
  have e3 : C = (C.toNat : Int) := (Int.toNat_of_nonneg hC).symm
  conv_lhs => rw [e1, e2, e3]
  rw [← Nat.cast_mul, ← Nat.cast_add, Int.toNat_natCast]

theorem toNat_mul_of_nonneg (A B : Int) (hA : 0 ≤ A) (hB : 0 ≤ B) :
    (A * B).toNat = A.toNat * B.toNat := by
  have e1 : A = (A.toNat : Int) := (Int.toNat_of_nonneg hA).symm
  have e2 : B = (B.toNat : Int) := (Int.toNat_of_nonneg hB).symm
  conv_lhs => rw [e1, e2]
  rw [← Nat.cast_mul, Int.toNat_natCast]

theorem foldl_congr_of_eq {α β : Type} (l : List β) (f g : α → β → α)
    (h : ∀ x b, f x b = g x b) : ∀ a : α, l.foldl f a = l.foldl g a := by
  induction l with
  | nil => intro a; rfl
  | cons b rest ih =>
    intro a
    rw [List.foldl_cons, List.foldl_cons, h, ih]

theorem foldl_const {α β : Type} (l : List β) (a : α) :
    l.foldl (fun x _ => x) a = a := by
  induction l generalizing a with
  | nil => rfl
  | cons b rest ih => rw [List.foldl_cons]; exact ih a

/-- Characterization of one row write: only the stride
[B, B + w) of the raster changes, receiving the row values in order. -/
theorem foldl_set_range_getD (w : Nat) :
    ∀ (acc : List Gid) (B : Nat) (f : Nat → Gid), B + w ≤ acc.length →
      ∀ p, ((List.range w).foldl (fun a lx => a.set (B + lx) (f lx)) acc).getD
          p Gid.Null =
        if B ≤ p ∧ p < B + w then f (p - B) else acc.getD p Gid.Null := by
  induction w with
  | zero =>
    intro acc B f hlen p
    rw [if_neg (by omega)]
    rfl
  | succ w ih =>
    intro acc B f hlen p
    rw [List.range_succ, List.foldl_append, List.foldl_cons, List.foldl_nil]
    have hlen2 : ((List.range w).foldl
        (fun a lx => a.set (B + lx) (f lx)) acc).length = acc.length := by
      apply foldl_length_preserved
      intro a b
      exact List.length_set a _ _
    by_cases hp : p = B + w
    · subst hp
      rw [getD_set_self _ _ _ (by rw [hlen2]; omega)]
      rw [if_pos (by omega)]
      have hw : B + w - B = w := by omega
      rw [hw]
    · rw [getD_set_ne _ _ _ _ (fun hcon => hp hcon.symm)]
      rw [ih acc B f (by omega) p]
      by_cases hc : B ≤ p ∧ p < B + w
      · rw [if_pos hc, if_pos (by omega)]
      · rw [if_neg hc, if_neg (by omega)]

/-- Division-free uniqueness of the row decomposition of a raster index. -/
theorem row_decomp_iff (rw v u V U w : Nat) (hu : u < rw) (hUw : U + w ≤ rw) :
    (V * rw + U ≤ v * rw + u ∧ v * rw + u < V * rw + U + w) ↔
      (V = v ∧ U ≤ u ∧ u < U + w) := by
  constructor
  · rintro ⟨h1, h2⟩
    have hVv : V = v := by
      have hle : V ≤ v := by
        by_contra hcon
        push_neg at hcon
        have hm : (v + 1) * rw ≤ V * rw := Nat.mul_le_mul_right _ (by omega)
        have he : (v + 1) * rw = v * rw + rw := by ring
        omega
      have hge : v ≤ V := by
        by_contra hcon
        push_neg at hcon
        have hm : (V + 1) * rw ≤ v * rw := Nat.mul_le_mul_right _ (by omega)
        have he : (V + 1) * rw = V * rw + rw := by ring
        omega
      omega
    subst hVv
    omega
  · rintro ⟨hVv, h2, h3⟩
    subst hVv
    omega

/-- Under box inclusion, the raw indices written by writeChunk decompose
into row strides, turning the copy loop into a canonical form. -/
theorem writeChunk_eq_canonical (c : Chunk) (gminx gminy : Int) (rw : Nat)
    (acc : List Gid) (hcx1 : gminx ≤ c.min_x) (hcy1 : gminy ≤ c.min_y)
    (hmx : c.min_x ≤ c.max_x) :
    writeChunk gminx gminy rw acc c =
      (List.range (c.max_y - c.min_y).toNat).foldl
        (fun a ly => (List.range (c.max_x - c.min_x).toNat).foldl
          (fun a2 lx => a2.set
            (((c.min_y - gminy).toNat + ly) * rw + (c.min_x - gminx).toNat + lx)
            (c.tile_gids.getD (ly * (c.max_x - c.min_x).toNat + lx) Gid.Null)) a)
        acc := by
  unfold writeChunk
  apply foldl_congr_of_eq
  intro a ly
  apply foldl_congr_of_eq
  intro a2 lx
  have hidx1 : ((c.min_y + (ly : Int) - gminy) * (rw : Int) +
      (c.min_x + (lx : Int) - gminx)).toNat =
      ((c.min_y - gminy).toNat + ly) * rw + (c.min_x - gminx).toNat + lx := by
    rw [toNat_linear' (c.min_y + (ly : Int) - gminy) (rw : Int)
      (c.min_x + (lx : Int) - gminx) (by omega) (by omega) (by omega)]
    have h1 : ((rw : Int)).toNat = rw := Int.toNat_natCast rw
    have h2 : (c.min_y + (ly : Int) - gminy).toNat = (c.min_y - gminy).toNat + ly := by
      omega
    have h3 : (c.min_x + (lx : Int) - gminx).toNat = (c.min_x - gminx).toNat + lx := by
      omega
    rw [h1, h2, h3]
    ring
  have hidx2 : ((c.min_y + (ly : Int) - c.min_y) * (c.max_x - c.min_x) +
      (c.min_x + (lx : Int) - c.min_x)).toNat =
      ly * (c.max_x - c.min_x).toNat + lx := by
    rw [toNat_linear' (c.min_y + (ly : Int) - c.min_y) (c.max_x - c.min_x)
      (c.min_x + (lx : Int) - c.min_x) (by omega) (by omega) (by omega)]
    have h2 : (c.min_y + (ly : Int) - c.min_y).toNat = ly := by omega
    have h3 : (c.min_x + (lx : Int) - c.min_x).toNat = lx := by omega
    rw [h2, h3]
  simp only [hidx1, hidx2]

/-- Cell-level characterization of the nested row fold: a cell with
raster coordinates (v, u) receives the chunk value of its local cell when
it lies under one of the n written rows, and is untouched otherwise. -/
theorem rows_fold_getD (w rw : Nat) (vals : Nat → Nat → Gid) (V0 U : Nat)
    (hUw : U + w ≤ rw) :
    ∀ (n : Nat) (acc : List Gid) (v u : Nat), u < rw →
      (∀ m, m < n → (V0 + m) * rw + U + w ≤ acc.length) →
      ((List.range n).foldl (fun a ly => (List.range w).foldl
        (fun a2 lx => a2.set ((V0 + ly) * rw + U + lx) (vals ly lx)) a)
        acc).getD (v * rw + u) Gid.Null =
      if V0 ≤ v ∧ v < V0 + n ∧ U ≤ u ∧ u < U + w
      then vals (v - V0) (u - U)
      else acc.getD (v * rw + u) Gid.Null := by
  intro n
  induction n with
  | zero =>
    intro acc v u hu hlen
    rw [if_neg (by omega)]
    rfl
  | succ n ih =>
    intro acc v u hu hlen
    rw [List.range_succ, List.foldl_append, List.foldl_cons, List.foldl_nil]
    have hlenfold : ((List.range n).foldl (fun a ly => (List.range w).foldl
        (fun a2 lx => a2.set ((V0 + ly) * rw + U + lx) (vals ly lx)) a)
        acc).length = acc.length := by
      apply foldl_length_preserved
      intro a b
      apply foldl_length_preserved
      intro a2 b2
      exact List.length_set a2 _ _
    rw [foldl_set_range_getD w _ ((V0 + n) * rw + U) (vals n)
      (by rw [hlenfold]; exact hlen n (by omega)) (v * rw + u)]
    by_cases hhit : (V0 + n) * rw + U ≤ v * rw + u ∧
        v * rw + u < (V0 + n) * rw + U + w
    · rw [if_pos hhit]
      obtain ⟨hv, hU2, hUw2⟩ := (row_decomp_iff rw v u (V0 + n) U w hu hUw).mp
        (by omega)
      rw [if_pos (by omega)]
      have e1 : v - V0 = n := by omega
      have e2 : v * rw + u - ((V0 + n) * rw + U) = u - U := by
        rw [← hv]
        omega
      rw [e1, e2]
    · rw [if_neg hhit, ih acc v u hu (fun m hm => hlen m (by omega))]
      by_cases hc : V0 ≤ v ∧ v < V0 + n ∧ U ≤ u ∧ u < U + w
      · rw [if_pos hc, if_pos (by omega)]
      · rw [if_neg hc]
        rw [if_neg ?_]
        intro hcon
        rcases Nat.lt_or_ge v (V0 + n) with h1 | h1
        · exact hc ⟨hcon.1, h1, hcon.2.2⟩
        · have hv : V0 + n = v := by omega
          exact hhit ((row_decomp_iff rw v u (V0 + n) U w hu hUw).mpr
            ⟨hv, hcon.2.2⟩)

/-- Cell-level effect of one chunk copy on an in-box cell: the chunk's
local value where the chunk covers the cell, the previous raster value
elsewhere. -/
theorem writeChunk_getD (c : Chunk) (gminx gminy : Int) (rw rh : Nat)
    (acc : List Gid) (hacc : acc.length = rw * rh)
    (hmono1 : c.min_x ≤ c.max_x) (hmono2 : c.min_y ≤ c.max_y)
    (hsub : c.min_x < c.max_x → c.min_y < c.max_y →
      gminx ≤ c.min_x ∧ c.max_x ≤ gminx + (rw : Int) ∧
      gminy ≤ c.min_y ∧ c.max_y ≤ gminy + (rh : Int))
    (gx gy : Int)
    (hgx1 : gminx ≤ gx) (hgx2 : gx < gminx + (rw : Int))
    (hgy1 : gminy ≤ gy) (hgy2 : gy < gminy + (rh : Int)) :
    (writeChunk gminx gminy rw acc c).getD
      ((gy - gminy) * (rw : Int) + (gx - gminx)).toNat Gid.Null =
    if c.covers gx gy
    then c.tile_gids.getD
      ((gy - c.min_y) * (c.max_x - c.min_x) + (gx - c.min_x)).toNat Gid.Null
    else acc.getD ((gy - gminy) * (rw : Int) + (gx - gminx)).toNat Gid.Null := by
  by_cases hex : c.min_x < c.max_x ∧ c.min_y < c.max_y
  · obtain ⟨hbx1, hbx2, hby1, hby2⟩ := hsub hex.1 hex.2
    rw [writeChunk_eq_canonical c gminx gminy rw acc hbx1 hby1 hmono1]
    have hp : ((gy - gminy) * (rw : Int) + (gx - gminx)).toNat =
        (gy - gminy).toNat * rw + (gx - gminx).toNat := by
      rw [toNat_linear' (gy - gminy) (rw : Int) (gx - gminx) (by omega)
        (by omega) (by omega), Int.toNat_natCast]
    rw [hp]
    rw [rows_fold_getD (c.max_x - c.min_x).toNat rw
      (fun ly lx => c.tile_gids.getD (ly * (c.max_x - c.min_x).toNat + lx)
        Gid.Null)
      (c.min_y - gminy).toNat (c.min_x - gminx).toNat (by omega)
      (c.max_y - c.min_y).toNat acc (gy - gminy).toNat (gx - gminx).toNat
      (by omega) ?hlen]
    case hlen =>
      intro m hm
      rw [hacc]
      have hv : (c.min_y - gminy).toNat + m + 1 ≤ rh := by omega
      have hU : (c.min_x - gminx).toNat + (c.max_x - c.min_x).toNat ≤ rw := by
        omega
      calc ((c.min_y - gminy).toNat + m) * rw + (c.min_x - gminx).toNat +
            (c.max_x - c.min_x).toNat
          ≤ ((c.min_y - gminy).toNat + m) * rw + rw := by omega
        _ = ((c.min_y - gminy).toNat + m + 1) * rw := by ring
        _ ≤ rh * rw := Nat.mul_le_mul_right _ hv
        _ = rw * rh := Nat.mul_comm _ _
    by_cases hcov : c.covers gx gy
    · obtain ⟨q1, q2, q3, q4⟩ := hcov
      rw [if_pos (by omega), if_pos ⟨q1, q2, q3, q4⟩]
      have hq : ((gy - c.min_y) * (c.max_x - c.min_x) + (gx - c.min_x)).toNat =
          (gy - c.min_y).toNat * (c.max_x - c.min_x).toNat +
            (gx - c.min_x).toNat := by
        rw [toNat_linear' (gy - c.min_y) (c.max_x - c.min_x) (gx - c.min_x)
          (by omega) (by omega) (by omega)]
      rw [hq]
      have e1 : (gy - gminy).toNat - (c.min_y - gminy).toNat =
          (gy - c.min_y).toNat := by omega
      have e2 : (gx - gminx).toNat - (c.min_x - gminx).toNat =
          (gx - c.min_x).toNat := by omega
      rw [e1, e2]
    · have hncov : ¬ ((c.min_y - gminy).toNat ≤ (gy - gminy).toNat ∧
          (gy - gminy).toNat < (c.min_y - gminy).toNat +
            (c.max_y - c.min_y).toNat ∧
          (c.min_x - gminx).toNat ≤ (gx - gminx).toNat ∧
          (gx - gminx).toNat < (c.min_x - gminx).toNat +
            (c.max_x - c.min_x).toNat) := by
        unfold Chunk.covers at hcov
        omega
      rw [if_neg hncov, if_neg hcov]
  · have hcov : ¬ c.covers gx gy := by
      unfold Chunk.covers
      omega
    rw [if_neg hcov]
    have hwc : writeChunk gminx gminy rw acc c = acc := by
      unfold writeChunk
      rcases Nat.lt_or_ge 0 (c.max_y - c.min_y).toNat with hcy | hcy
      · have hcx : (c.max_x - c.min_x).toNat = 0 := by omega
        rw [hcx]
        simp only [List.range_zero, List.foldl_nil]
        exact foldl_const _ acc
      · have h0 : (c.max_y - c.min_y).toNat = 0 := by omega
        rw [h0]
        simp only [List.range_zero, List.foldl_nil]
    rw [hwc]

theorem foldl_covering_init (gx gy : Int) (cs : List Chunk) :
    ∀ init : Option Chunk,
      cs.foldl (fun acc c => if c.covers gx gy then some c else acc) init =
        match lastCovering cs gx gy with
        | some c => some c
        | none => init := by
  induction cs with
  | nil => intro init; rfl
  | cons c rest ih =>
    intro init
    have hLC : lastCovering (c :: rest) gx gy =
        match lastCovering rest gx gy with
        | some c2 => some c2
        | none => if c.covers gx gy then some c else none := by
      unfold lastCovering
      rw [List.foldl_cons]
      exact ih _
    rw [List.foldl_cons, ih _, hLC]
    cases hl : lastCovering rest gx gy with
    | some c2 => rfl
    | none =>
      by_cases h : c.covers gx gy <;> simp [h]

theorem lastCovering_eq_none (cs : List Chunk) (gx gy : Int)
    (h : ∀ c ∈ cs, ¬ c.covers gx gy) : lastCovering cs gx gy = none := by
  unfold lastCovering
  induction cs with
  | nil => rfl
  | cons c rest ih =>
    rw [List.foldl_cons, if_neg (h c (List.mem_cons_self _ _))]
    exact ih (fun c2 hc2 => h c2 (List.mem_cons_of_mem _ hc2))

/-- Cell-level characterization of the whole compositing fold: the value
of an in-box cell is the local value of the LAST chunk covering it, and
the initial raster value when no chunk covers it. -/
theorem foldl_writeChunk_getD (gminx gminy : Int) (rw rh : Nat) (gx gy : Int)
    (hgx1 : gminx ≤ gx) (hgx2 : gx < gminx + (rw : Int))
    (hgy1 : gminy ≤ gy) (hgy2 : gy < gminy + (rh : Int)) :
    ∀ (cs : List Chunk) (acc : List Gid), acc.length = rw * rh →
      (∀ c ∈ cs, (c.min_x ≤ c.max_x ∧ c.min_y ≤ c.max_y) ∧
        (c.min_x < c.max_x → c.min_y < c.max_y →
          gminx ≤ c.min_x ∧ c.max_x ≤ gminx + (rw : Int) ∧
          gminy ≤ c.min_y ∧ c.max_y ≤ gminy + (rh : Int))) →
      (cs.foldl (writeChunk gminx gminy rw) acc).getD
        ((gy - gminy) * (rw : Int) + (gx - gminx)).toNat Gid.Null =
      match lastCovering cs gx gy with
      | some c => c.tile_gids.getD
          ((gy - c.min_y) * (c.max_x - c.min_x) + (gx - c.min_x)).toNat Gid.Null
      | none => acc.getD ((gy - gminy) * (rw : Int) + (gx - gminx)).toNat
          Gid.Null := by
  intro cs
  induction cs with
  | nil => intro acc hacc hcs; rfl
  | cons c rest ih =>
    intro acc hacc hcs
    have hc := hcs c (List.mem_cons_self _ _)
    have hlen2 : (writeChunk gminx gminy rw acc c).length = acc.length :=
      writeChunk_length _ _ _ _ _
    rw [List.foldl_cons,
      ih (writeChunk gminx gminy rw acc c) (by rw [hlen2]; exact hacc)
        (fun c2 hc2 => hcs c2 (List.mem_cons_of_mem _ hc2))]
    have hLC : lastCovering (c :: rest) gx gy =
        match lastCovering rest gx gy with
        | some c2 => some c2
        | none => if c.covers gx gy then some c else none := by
      unfold lastCovering
      rw [List.foldl_cons]
      exact foldl_covering_init gx gy rest _
    rw [hLC]
    cases hl : lastCovering rest gx gy with
    | some c2 => rfl
    | none =>
      rw [writeChunk_getD c gminx gminy rw rh acc hacc hc.1.1 hc.1.2 hc.2
        gx gy hgx1 hgx2 hgy1 hgy2]
      by_cases hcov : c.covers gx gy <;> simp [hcov]

theorem u32OfWrap_of_nonneg (v : Int) (h1 : 0 ≤ v) (h2 : v < 2 ^ 32) :
    u32OfWrap v = v.toNat := by
  unfold u32OfWrap
  rw [Int.emod_eq_of_lt h1 h2]

theorem getD_replicate_null (n p : Nat) :
    (List.replicate n Gid.Null).getD p Gid.Null = Gid.Null := by
  induction n generalizing p with
  | zero => rfl
  | succ n ih =>
    cases p with
    | zero => rfl
    | succ p => exact ih p

end TiledParser
